import Mathlib

/-!
Verification of the dual-store resume ingestion and retrieval backend.

The embedding translates the Python backend:
- `src/backend/app/models.py`    : the `Resume` table row (metadata store record).
- `src/backend/app/crud.py`      : `create_resume` and `query_resumes`.
- `src/backend/app/main.py`      : the `/ingest` coordinator (`ingest_resume`)
  and the `/search` policy (`search`).

External collaborators (text extractor, embedding model, ChromaDB client,
SQL session) are modelled as an environment of outcomes supplied to a single
ingestion: the coordinator logic itself is translated faithfully from
`main.py`, including the order of the two store writes and the bare
re-raise on every failure point.  The SQL `ilike` filter with the
unescaped pattern `%pat%` is modelled with full LIKE wildcard semantics:
a percent sign inside `pat` matches any character sequence and an
underscore matches exactly one character, both compared case
insensitively, with a NULL column never matching.
-/

namespace ResumeIndex

/-- Python truthiness of an optional string argument: `None` and the empty
string are both falsy (`if name:` in `main.py` and `crud.py`). -/
def truthy : Option String → Bool
  | none => false
  | some s => !s.isEmpty

/-- SQL LIKE pattern matching over character lists, as the database
evaluates a LIKE pattern against a column value: a percent sign in the
pattern matches any sequence of characters, an underscore matches exactly
one character, and every other pattern character matches only itself. -/
def likeMatch : List Char → List Char → Bool
  | [], ss => ss.isEmpty
  | p :: ps, ss =>
    if p == '%' then ss.tails.any (fun t => likeMatch ps t)
    else
      match ss with
      | [] => false
      | c :: ss2 => (p == '_' || p == c) && likeMatch ps ss2

/-- SQLAlchemy `column.ilike` applied to the unescaped pattern `%pat%`
(`crud.query_resumes`): case-insensitive LIKE matching, so wildcard
characters occurring inside `pat` keep their LIKE meaning; a NULL column
yields NULL, hence never matches. -/
def ilikeMatch (stored : Option String) (pat : String) : Bool :=
  match stored with
  | none => false
  | some s => likeMatch ('%' :: (pat.data.map Char.toLower ++ ['%']))
      (s.data.map Char.toLower)

/-- A row of the `resumes` table (`models.Resume`).  `created_at` is the
server-assigned timestamp, modelled as a natural number. -/
structure Resume where
  id : Nat
  name : Option String
  resumetype : Option String
  occupation : Option String
  filename : String
  chroma_id : String
  snippet : String
  created_at : Nat
deriving Repr, DecidableEq

/-- One entry of the Chroma collection, as written by `col.add` in
`main.ingest_resume`: id, full document text, embedding, and the metadata
tag copy. -/
structure VectorRecord where
  id : String
  text : String
  embedding : List Int
  tagName : Option String
  tagResumetype : Option String
  tagOccupation : Option String
  tagFilename : String
deriving Repr, DecidableEq

/-- Joint state of the two stores: the Chroma collection (vector index) and
the `resumes` table (metadata store), plus the primary-key counter and the
server clock that `create` reads. -/
structure State where
  vecRows : List VectorRecord
  metaRows : List Resume
  nextId : Nat
  now : Nat
deriving Repr, DecidableEq

/-- `crud.create_resume`: `db.add` + `db.commit` + `db.refresh` — appends
one row, with `id` assigned by the store and `created_at` set by the
server, and returns the persisted object. -/
def create_resume (s : State) (name resumetype occupation : Option String)
    (filename chroma_id snippet : String) : Resume × State :=
  let obj : Resume :=
    { id := s.nextId, name := name, resumetype := resumetype,
      occupation := occupation, filename := filename, chroma_id := chroma_id,
      snippet := snippet, created_at := s.now }
  (obj, { s with metaRows := s.metaRows ++ [obj], nextId := s.nextId + 1 })

/-- `crud.query_resumes`: starts from the whole table and conjoins one
`ilike %pat%` filter per truthy argument. -/
def query_resumes (s : State) (name resumetype occupation : Option String) :
    List Resume :=
  let q := s.metaRows
  let q := if truthy name then
    q.filter (fun r => ilikeMatch r.name (name.getD "")) else q
  let q := if truthy resumetype then
    q.filter (fun r => ilikeMatch r.resumetype (resumetype.getD "")) else q
  let q := if truthy occupation then
    q.filter (fun r => ilikeMatch r.occupation (occupation.getD "")) else q
  q

/-- `main.search`: RULE 1 — a truthy `name` triggers the strict branch,
querying on `name` alone (the other two arguments are not forwarded) and
returning `[]` when the result list is empty; RULE 2 — otherwise the
flexible branch forwards `resumetype` and `occupation` with `name=None`. -/
def search (s : State) (name resumetype occupation : Option String) :
    List Resume :=
  if truthy name then
    let result := query_resumes s name none none
    if result.isEmpty then [] else result
  else
    query_resumes s none resumetype occupation

/-- The error taxonomy of one ingestion, one case per `try/except/raise`
block of `main.ingest_resume`. -/
inductive IngestError
  | extractionError
  | encodingError
  | indexWriteError
  | storeWriteError
deriving Repr, DecidableEq

/-- Observable events of one ingestion, in the order the coordinator emits
them; `encodeAttempt` records the exact text handed to the encoder. -/
inductive Event
  | extractAttempt (ok : Bool)
  | encodeAttempt (input : String) (ok : Bool)
  | vectorWrite (ok : Bool)
  | metaWrite (ok : Bool)
deriving Repr, DecidableEq

/-- Outcomes of the external collaborators during one ingestion:
the result of `utils.extract_text` (whose module is outside the core),
the behaviour of `model.encode`, the UUID minted by `uuid.uuid4()`, and
whether each of the two store writes raises. -/
structure IngestEnv where
  extractResult : Except Unit String
  encode : String → Except Unit (List Int)
  freshId : String
  vecWriteOk : Bool
  metaWriteOk : Bool

/-- The form fields of the `/ingest` request. -/
structure IngestArgs where
  filename : String
  name : Option String
  resumetype : Option String
  occupation : Option String

/-- `main.ingest_resume`: extract, embed, `col.add` into Chroma under a
fresh id, then `crud.create_resume` into the metadata store with
`snippet = text[:300]`; every failure re-raises immediately, leaving the
effects of the already completed steps in place.  Returns the handler
outcome, the final store state, and the event trace. -/
def ingest (env : IngestEnv) (a : IngestArgs) (s : State) :
    Except IngestError Resume × State × List Event :=
  match env.extractResult with
  | .error _ => (.error .extractionError, s, [.extractAttempt false])
  | .ok text =>
    match env.encode text with
    | .error _ =>
      (.error .encodingError, s, [.extractAttempt true, .encodeAttempt text false])
    | .ok embedding =>
      let chroma_id := env.freshId
      if env.vecWriteOk then
        let vr : VectorRecord :=
          { id := chroma_id, text := text, embedding := embedding,
            tagName := a.name, tagResumetype := a.resumetype,
            tagOccupation := a.occupation, tagFilename := a.filename }
        let s1 : State := { s with vecRows := s.vecRows ++ [vr] }
        if env.metaWriteOk then
          let res := create_resume s1 a.name a.resumetype a.occupation
            a.filename chroma_id (text.take 300)
          (.ok res.1, res.2,
           [.extractAttempt true, .encodeAttempt text true,
            .vectorWrite true, .metaWrite true])
        else
          (.error .storeWriteError, s1,
           [.extractAttempt true, .encodeAttempt text true,
            .vectorWrite true, .metaWrite false])
      else
        (.error .indexWriteError, s,
         [.extractAttempt true, .encodeAttempt text true, .vectorWrite false])

/-- The per-record match predicate that `search` implements, read off the
two branches: a truthy name is matched alone, otherwise the truthy ones of
the other two fields are conjoined. -/
def matchesQuery (name resumetype occupation : Option String) (r : Resume) :
    Bool :=
  if truthy name then ilikeMatch r.name (name.getD "")
  else
    (if truthy resumetype then ilikeMatch r.resumetype (resumetype.getD "")
     else true) &&
    (if truthy occupation then ilikeMatch r.occupation (occupation.getD "")
     else true)

/-! Concrete fixtures used by the witness theorems: a store holding two
previously ingested records, and environments for a fully successful
ingestion and for each failure mode. -/

/-- A stored record whose name is written in lower case. -/
def rJane : Resume :=
  { id := 1, name := some "jane doe", resumetype := some "Engineering",
    occupation := some "Software Engineer", filename := "r1.txt",
    chroma_id := "c-1", snippet := "Jane Doe, Software Engineer",
    created_at := 0 }

/-- A second stored record with a different name. -/
def rBob : Resume :=
  { id := 2, name := some "Bob Stone", resumetype := some "Sales",
    occupation := some "Manager", filename := "r2.txt",
    chroma_id := "c-2", snippet := "Bob Stone, Sales Manager",
    created_at := 1 }

/-- A store state holding the two fixture records. -/
def exState : State :=
  { vecRows := [], metaRows := [rJane, rBob], nextId := 3, now := 5 }

/-- An environment in which every step of the ingestion succeeds. -/
def exEnv : IngestEnv :=
  { extractResult := .ok "Jane Doe, Software Engineer",
    encode := fun t => .ok [Int.ofNat t.length],
    freshId := "uuid-1", vecWriteOk := true, metaWriteOk := true }

/-- Like `exEnv` but the metadata-store write raises. -/
def exEnvMetaFail : IngestEnv :=
  { extractResult := .ok "Jane Doe, Software Engineer",
    encode := fun t => .ok [Int.ofNat t.length],
    freshId := "uuid-1", vecWriteOk := true, metaWriteOk := false }

/-- Like `exEnv` but text extraction raises (unsupported file type). -/
def exEnvExtractFail : IngestEnv :=
  { extractResult := .error (),
    encode := fun t => .ok [Int.ofNat t.length],
    freshId := "uuid-1", vecWriteOk := true, metaWriteOk := true }

/-- The form fields accompanying the fixture upload. -/
def exArgs : IngestArgs :=
  { filename := "r1.txt", name := some "Jane Doe",
    resumetype := some "Engineering", occupation := some "Software Engineer" }

/-- The metadata row persisted by a successful fixture ingestion. -/
def exObj : Resume :=
  { id := 3, name := some "Jane Doe", resumetype := some "Engineering",
    occupation := some "Software Engineer", filename := "r1.txt",
    chroma_id := "uuid-1", snippet := "Jane Doe, Software Engineer",
    created_at := 5 }

/-- The vector entry persisted by a successful fixture ingestion. -/
def exVr : VectorRecord :=
  { id := "uuid-1", text := "Jane Doe, Software Engineer", embedding := [27],
    tagName := some "Jane Doe", tagResumetype := some "Engineering",
    tagOccupation := some "Software Engineer", tagFilename := "r1.txt" }

/-- The store state after a successful fixture ingestion. -/
def exState1 : State :=
  { vecRows := [exVr], metaRows := [rJane, rBob, exObj], nextId := 4, now := 5 }

/-- The event trace of a successful fixture ingestion. -/
def exTrace : List Event :=
  [.extractAttempt true, .encodeAttempt "Jane Doe, Software Engineer" true,
   .vectorWrite true, .metaWrite true]

/-- A stored record whose occupation contains the digits 100 without a
literal percent sign, used to exhibit LIKE wildcard matching. -/
def rCarol : Resume :=
  { id := 4, name := some "Carol Reyes", resumetype := some "Sales",
    occupation := some "100 percent", filename := "r3.txt",
    chroma_id := "c-3", snippet := "Carol Reyes, Sales",
    created_at := 2 }

/-- A store state holding only the wildcard-sensitive fixture record. -/
def exStateC : State :=
  { vecRows := [], metaRows := [rCarol], nextId := 5, now := 6 }

/-! Helper lemmas shared by the claim theorems. -/

theorem truthy_some_of_ne (n : String) (h : n ≠ "") : truthy (some n) = true := by
  have hE : n.isEmpty = false := by
    rw [← Bool.not_eq_true, String.isEmpty_iff]; exact h
  simp [truthy, hE]

theorem truthy_some_empty : truthy (some "") = false := by decide

theorem likeMatch_percent_cons (ps ss : List Char) :
    likeMatch ('%' :: ps) ss = ss.tails.any (fun t => likeMatch ps t) := by
  simp [likeMatch]

theorem likeMatch_starts_with :
    ∀ (p v : List Char), p <+: v → likeMatch (p ++ ['%']) v = true := by
  intro p
  induction p with
  | nil =>
    intro v _
    rw [List.nil_append, likeMatch_percent_cons, List.any_eq_true]
    exact ⟨[], List.mem_tails _ _ |>.mpr List.nil_suffix, rfl⟩
  | cons c cs ih =>
    intro v hp
    obtain ⟨t, ht⟩ := hp
    subst ht
    by_cases hc : c = '%'
    · subst hc
      rw [List.cons_append, likeMatch_percent_cons, List.any_eq_true]
      refine ⟨cs ++ t, ?_, ih _ (List.prefix_append cs t)⟩
      rw [List.mem_tails]
      calc cs ++ t <:+ '%' :: (cs ++ t) := List.suffix_cons _ _
        _ = ('%' :: cs) ++ t := rfl
    · show likeMatch ((c :: cs) ++ ['%']) ((c :: cs) ++ t) = true
      rw [List.cons_append, List.cons_append]
      simp only [likeMatch, beq_iff_eq, hc, if_false]
      simp [ih _ (List.prefix_append cs t)]

theorem likeMatch_of_infix (p s : List Char) (h : p <:+: s) :
    likeMatch ('%' :: (p ++ ['%'])) s = true := by
  obtain ⟨t, hpt, hts⟩ := List.infix_iff_prefix_suffix.mp h
  rw [likeMatch_percent_cons, List.any_eq_true]
  exact ⟨t, List.mem_tails _ _ |>.mpr hts, likeMatch_starts_with p t hpt⟩

theorem likeMatch_lit_iff :
    ∀ (p : List Char), '%' ∉ p → '_' ∉ p →
      ∀ v, likeMatch (p ++ ['%']) v = true ↔ p <+: v := by
  intro p
  induction p with
  | nil =>
    intro _ _ v
    constructor
    · intro _
      exact ⟨v, rfl⟩
    · intro _
      exact likeMatch_starts_with [] v ⟨v, rfl⟩
  | cons c cs ih =>
    intro hpc hu v
    have hc : c ≠ '%' := fun h => hpc (h ▸ List.mem_cons_self c cs)
    have hcu : c ≠ '_' := fun h => hu (h ▸ List.mem_cons_self c cs)
    have hpc2 : '%' ∉ cs := fun h => hpc (List.mem_cons_of_mem c h)
    have hu2 : '_' ∉ cs := fun h => hu (List.mem_cons_of_mem c h)
    cases v with
    | nil =>
      rw [List.cons_append]
      simp only [likeMatch, beq_iff_eq, hc, if_false]
      simp
    | cons x v2 =>
      rw [List.cons_append]
      simp only [likeMatch, beq_iff_eq, hc, if_false]
      rw [List.cons_prefix_cons]
      simp [hcu, ih hpc2 hu2 v2]

theorem likeMatch_wildcard_free_iff (p v : List Char)
    (h1 : '%' ∉ p) (h2 : '_' ∉ p) :
    likeMatch ('%' :: (p ++ ['%'])) v = true ↔ p <:+: v := by
  rw [likeMatch_percent_cons, List.any_eq_true, List.infix_iff_prefix_suffix]
  constructor
  · rintro ⟨t, htm, hl⟩
    exact ⟨t, (likeMatch_lit_iff p h1 h2 t).mp hl, List.mem_tails _ _ |>.mp htm⟩
  · rintro ⟨t, hpt, hts⟩
    exact ⟨t, List.mem_tails _ _ |>.mpr hts, (likeMatch_lit_iff p h1 h2 t).mpr hpt⟩

theorem char_toLower_fix (w : Char) (hfix : Char.toLower w = w)
    (hne : ∀ n : Nat, 65 ≤ n → n ≤ 90 → Char.ofNat (n + 32) ≠ w) :
    ∀ c : Char, c.toLower = w ↔ c = w := by
  intro c
  constructor
  · intro h
    unfold Char.toLower at h
    simp only [] at h
    split at h
    · rename_i hr
      exact absurd h (hne c.toNat hr.1 hr.2)
    · exact h
  · intro h
    subst h
    exact hfix

theorem toLower_eq_percent (c : Char) : c.toLower = '%' ↔ c = '%' :=
  char_toLower_fix '%' (by decide)
    (by intro n h1 h2; interval_cases n <;> decide) c

theorem toLower_eq_underscore (c : Char) : c.toLower = '_' ↔ c = '_' :=
  char_toLower_fix '_' (by decide)
    (by intro n h1 h2; interval_cases n <;> decide) c

theorem percent_mem_map_toLower (l : List Char) :
    '%' ∈ l.map Char.toLower ↔ '%' ∈ l := by
  rw [List.mem_map]
  constructor
  · rintro ⟨c, hc, he⟩
    exact (toLower_eq_percent c).mp he ▸ hc
  · intro h
    exact ⟨'%', h, by decide⟩

theorem underscore_mem_map_toLower (l : List Char) :
    '_' ∈ l.map Char.toLower ↔ '_' ∈ l := by
  rw [List.mem_map]
  constructor
  · rintro ⟨c, hc, he⟩
    exact (toLower_eq_underscore c).mp he ▸ hc
  · intro h
    exact ⟨'_', h, by decide⟩

theorem ilikeMatch_of_infix (stored pat : String)
    (h : pat.data.map Char.toLower <:+: stored.data.map Char.toLower) :
    ilikeMatch (some stored) pat = true := by
  simp only [ilikeMatch]
  exact likeMatch_of_infix _ _ h

theorem ilikeMatch_wildcard_free_iff (stored pat : String)
    (h1 : '%' ∉ pat.data) (h2 : '_' ∉ pat.data) :
    ilikeMatch (some stored) pat = true ↔
      pat.data.map Char.toLower <:+: stored.data.map Char.toLower := by
  simp only [ilikeMatch]
  exact likeMatch_wildcard_free_iff _ _
    (fun hm => h1 ((percent_mem_map_toLower _).mp hm))
    (fun hm => h2 ((underscore_mem_map_toLower _).mp hm))

theorem ilikeMatch_none (pat : String) : ilikeMatch none pat = false := rfl

theorem truthy_none : truthy none = false := rfl

theorem if_isEmpty_eq_self (l : List Resume) :
    (if l.isEmpty then ([] : List Resume) else l) = l := by
  cases l <;> simp

theorem if_nil_eq_self (l : List Resume) :
    (if l = [] then ([] : List Resume) else l) = l := by
  split <;> simp_all

/-- `search` always returns exactly the rows of the metadata store passing
the per-branch match predicate, in stored order. -/
theorem search_eq_filter (s : State) (name rt occ : Option String) :
    search s name rt occ = s.metaRows.filter (matchesQuery name rt occ) := by
  cases hn : truthy name with
  | true =>
    simp only [search, query_resumes, hn, truthy_none, eq_self_iff_true,
      if_true, Bool.false_eq_true, if_false]
    rw [if_isEmpty_eq_self]
    apply List.filter_congr
    intro r hr
    simp [matchesQuery, hn]
  | false =>
    cases hrt : truthy rt <;> cases hocc : truthy occ <;>
      simp [search, query_resumes, hn, hrt, hocc, truthy_none,
        List.filter_filter] <;>
      first
      | (symm; rw [List.filter_eq_self]; intro r hr;
         simp [matchesQuery, hn, hrt, hocc])
      | (apply List.filter_congr; intro r hr;
         simp [matchesQuery, hn, hrt, hocc, Bool.and_comm])

theorem ingest_extract_fail_shape (env : IngestEnv) (a : IngestArgs) (s : State)
    (e : Unit) (h : env.extractResult = .error e) :
    ingest env a s = (.error .extractionError, s, [.extractAttempt false]) := by
  unfold ingest
  rw [h]

theorem ingest_encode_fail_shape (env : IngestEnv) (a : IngestArgs) (s : State)
    (text : String) (e : Unit) (htext : env.extractResult = .ok text)
    (henc : env.encode text = .error e) :
    ingest env a s = (.error .encodingError, s,
      [.extractAttempt true, .encodeAttempt text false]) := by
  simp only [ingest, htext, henc]

theorem ingest_vec_fail_shape (env : IngestEnv) (a : IngestArgs) (s : State)
    (text : String) (embedding : List Int)
    (htext : env.extractResult = .ok text) (henc : env.encode text = .ok embedding)
    (hv : env.vecWriteOk = false) :
    ingest env a s = (.error .indexWriteError, s,
      [.extractAttempt true, .encodeAttempt text true, .vectorWrite false]) := by
  simp only [ingest, htext, henc, hv, Bool.false_eq_true, if_false]

theorem ingest_meta_fail_shape (env : IngestEnv) (a : IngestArgs) (s : State)
    (text : String) (embedding : List Int)
    (htext : env.extractResult = .ok text) (henc : env.encode text = .ok embedding)
    (hv : env.vecWriteOk = true) (hm : env.metaWriteOk = false) :
    ingest env a s = (.error .storeWriteError,
      { s with vecRows := s.vecRows ++
          [{ id := env.freshId, text := text, embedding := embedding,
             tagName := a.name, tagResumetype := a.resumetype,
             tagOccupation := a.occupation, tagFilename := a.filename }] },
      [.extractAttempt true, .encodeAttempt text true,
       .vectorWrite true, .metaWrite false]) := by
  simp only [ingest, htext, henc, hv, hm, eq_self_iff_true, if_true,
    Bool.false_eq_true, if_false]

theorem ingest_ok_shape (env : IngestEnv) (a : IngestArgs) (s : State)
    (obj : Resume) (s' : State) (tr : List Event)
    (h : ingest env a s = (.ok obj, s', tr)) :
    ∃ text embedding,
      env.extractResult = .ok text ∧
      env.encode text = .ok embedding ∧
      env.vecWriteOk = true ∧ env.metaWriteOk = true ∧
      obj = { id := s.nextId, name := a.name, resumetype := a.resumetype,
              occupation := a.occupation, filename := a.filename,
              chroma_id := env.freshId, snippet := text.take 300,
              created_at := s.now } ∧
      s' = { vecRows := s.vecRows ++
               [{ id := env.freshId, text := text, embedding := embedding,
                  tagName := a.name, tagResumetype := a.resumetype,
                  tagOccupation := a.occupation, tagFilename := a.filename }],
             metaRows := s.metaRows ++ [obj],
             nextId := s.nextId + 1, now := s.now } ∧
      tr = [.extractAttempt true, .encodeAttempt text true,
            .vectorWrite true, .metaWrite true] := by
  cases htext : env.extractResult with
  | error e =>
    rw [ingest_extract_fail_shape env a s e htext] at h
    simp at h
  | ok text =>
    cases henc : env.encode text with
    | error e =>
      rw [ingest_encode_fail_shape env a s text e htext henc] at h
      simp at h
    | ok embedding =>
      cases hv : env.vecWriteOk with
      | false =>
        rw [ingest_vec_fail_shape env a s text embedding htext henc hv] at h
        simp at h
      | true =>
        cases hm : env.metaWriteOk with
        | false =>
          rw [ingest_meta_fail_shape env a s text embedding htext henc hv hm] at h
          simp at h
        | true =>
          refine ⟨text, embedding, rfl, henc, rfl, rfl, ?_⟩
          simp only [ingest, create_resume, htext, henc, hv, hm,
            eq_self_iff_true, if_true, Prod.mk.injEq, Except.ok.injEq] at h
          obtain ⟨hobj, hs, htr⟩ := h
          subst hobj
          subst hs
          subst htr
          exact ⟨rfl, rfl, rfl⟩

theorem ingest_ok_eq (env : IngestEnv) (a : IngestArgs) (s : State)
    (text : String) (embedding : List Int)
    (htext : env.extractResult = .ok text) (henc : env.encode text = .ok embedding)
    (hv : env.vecWriteOk = true) (hm : env.metaWriteOk = true) :
    ingest env a s =
      (.ok { id := s.nextId, name := a.name, resumetype := a.resumetype,
             occupation := a.occupation, filename := a.filename,
             chroma_id := env.freshId, snippet := text.take 300,
             created_at := s.now },
       { vecRows := s.vecRows ++
           [{ id := env.freshId, text := text, embedding := embedding,
              tagName := a.name, tagResumetype := a.resumetype,
              tagOccupation := a.occupation, tagFilename := a.filename }],
         metaRows := s.metaRows ++
           [{ id := s.nextId, name := a.name, resumetype := a.resumetype,
              occupation := a.occupation, filename := a.filename,
              chroma_id := env.freshId, snippet := text.take 300,
              created_at := s.now }],
         nextId := s.nextId + 1, now := s.now },
       [.extractAttempt true, .encodeAttempt text true,
        .vectorWrite true, .metaWrite true]) := by
  simp only [ingest, create_resume, htext, henc, hv, hm, eq_self_iff_true, if_true]

/-! The claim theorems. -/

/-- Claim C1 (amended): when a non-empty name is supplied, search ignores
the resumeType and occupation arguments entirely and returns the same
result sequence as a name-only search; membership in that result is
case-insensitive SQL LIKE matching of the stored name against the
unescaped pattern built by wrapping the supplied name in percent signs,
and this coincides with case-insensitive substring matching whenever the
supplied name contains neither LIKE wildcard character. -/
theorem search_name_priority (s : State) (n : String) (rt occ : Option String)
    (h : n ≠ "") :
    search s (some n) rt occ = search s (some n) none none ∧
    (∀ r : Resume, r ∈ search s (some n) rt occ ↔
      r ∈ s.metaRows ∧ ilikeMatch r.name n = true) ∧
    ('%' ∉ n.data → '_' ∉ n.data →
      ∀ r : Resume, r ∈ search s (some n) rt occ ↔
        r ∈ s.metaRows ∧ ∃ stored, r.name = some stored ∧
          n.data.map Char.toLower <:+: stored.data.map Char.toLower) := by
  have hn := truthy_some_of_ne n h
  have hm : ∀ rt' occ' : Option String, ∀ r : Resume,
      matchesQuery (some n) rt' occ' r = ilikeMatch r.name n := by
    intro rt' occ' r
    simp [matchesQuery, hn]
  have hmem : ∀ r : Resume, r ∈ search s (some n) rt occ ↔
      r ∈ s.metaRows ∧ ilikeMatch r.name n = true := by
    intro r
    rw [search_eq_filter, List.mem_filter, hm]
  refine ⟨?_, hmem, ?_⟩
  · rw [search_eq_filter, search_eq_filter]
    apply List.filter_congr
    intro r hr
    rw [hm, hm]
  · intro h1 h2 r
    rw [hmem r]
    constructor
    · rintro ⟨hr, hl⟩
      cases hname : r.name with
      | none =>
        rw [hname, ilikeMatch_none] at hl
        exact absurd hl (by simp)
      | some stored =>
        rw [hname] at hl
        exact ⟨hr, stored, rfl,
          (ilikeMatch_wildcard_free_iff stored n h1 h2).mp hl⟩
    · rintro ⟨hr, stored, hname, hsub⟩
      refine ⟨hr, ?_⟩
      rw [hname]
      exact (ilikeMatch_wildcard_free_iff stored n h1 h2).mpr hsub

theorem search_name_priority_witness :
    (search exState (some "Jane") (some "Sales") (some "Manager") =
      search exState (some "Jane") none none) ∧
    ∀ r : Resume,
      r ∈ search exState (some "Jane") (some "Sales") (some "Manager") ↔
      r ∈ exState.metaRows ∧ ∃ stored, r.name = some stored ∧
        "Jane".data.map Char.toLower <:+: stored.data.map Char.toLower :=
  ⟨(search_name_priority exState "Jane" (some "Sales") (some "Manager")
      (by decide)).1,
   (search_name_priority exState "Jane" (some "Sales") (some "Manager")
      (by decide)).2.2 (by decide) (by decide)⟩

/-- Counterexample to claim C1 as stated: searching for the name
containing an underscore wildcard returns the record named jane doe even
though the query is not a substring of the stored name, so name matching
is not exactly case-insensitive substring matching. -/
theorem search_name_priority_cex :
    rJane.name = some "jane doe" ∧
    rJane ∈ search exState (some "J_ne") none none ∧
    ¬ ("J_ne".data.map Char.toLower <:+: "jane doe".data.map Char.toLower) := by
  decide

/-- Claim C2: a successful ingestion appends exactly one VectorRecord to
the vector index and exactly one IngestedDocument to the metadata store,
and the VectorRecord id equals the stored correlation id, both being the
identifier minted in this ingestion. -/
theorem ingest_dual_write_consistency (env : IngestEnv) (a : IngestArgs)
    (s : State) (obj : Resume) (s' : State) (tr : List Event)
    (h : ingest env a s = (.ok obj, s', tr)) :
    ∃ vr : VectorRecord,
      s'.vecRows = s.vecRows ++ [vr] ∧
      s'.metaRows = s.metaRows ++ [obj] ∧
      vr.id = env.freshId ∧ obj.chroma_id = env.freshId := by
  obtain ⟨text, embedding, -, -, -, -, hobj, hs, -⟩ :=
    ingest_ok_shape env a s obj s' tr h
  subst hs
  refine ⟨_, rfl, rfl, rfl, ?_⟩
  rw [hobj]

theorem ingest_dual_write_consistency_witness :
    ∃ vr : VectorRecord,
      exState1.vecRows = exState.vecRows ++ [vr] ∧
      exState1.metaRows = exState.metaRows ++ [exObj] ∧
      vr.id = exEnv.freshId ∧ exObj.chroma_id = exEnv.freshId :=
  ingest_dual_write_consistency exEnv exArgs exState exObj exState1 exTrace
    (by simp only [ingest, create_resume, exEnv, exArgs, exState,
          String.take_eq]
        rfl)

/-- Claim C3: within one ingestion the vector write completes before any
metadata write is attempted: every metadata-write event is preceded by a
successful vector-write event, no metadata write occurs when the vector
write failed, and when the metadata write fails after a successful vector
write the state holds the new VectorRecord while the metadata table is
unchanged. -/
theorem ingest_vector_before_meta (env : IngestEnv) (a : IngestArgs) (s : State) :
    (∀ b : Bool, Event.metaWrite b ∈ (ingest env a s).2.2 →
      ∃ l₁ l₂ : List Event,
        (ingest env a s).2.2 = l₁ ++ Event.vectorWrite true :: l₂ ∧
        Event.metaWrite b ∈ l₂) ∧
    (Event.vectorWrite false ∈ (ingest env a s).2.2 →
      ∀ b : Bool, Event.metaWrite b ∉ (ingest env a s).2.2) ∧
    (Event.metaWrite false ∈ (ingest env a s).2.2 →
      (∃ vr ∈ (ingest env a s).2.1.vecRows, vr.id = env.freshId) ∧
      (ingest env a s).2.1.metaRows = s.metaRows) := by
  cases htext : env.extractResult with
  | error e =>
    rw [ingest_extract_fail_shape env a s e htext]
    refine ⟨?_, ?_, ?_⟩ <;> simp
  | ok text =>
    cases henc : env.encode text with
    | error e =>
      rw [ingest_encode_fail_shape env a s text e htext henc]
      refine ⟨?_, ?_, ?_⟩ <;> simp
    | ok embedding =>
      cases hv : env.vecWriteOk with
      | false =>
        rw [ingest_vec_fail_shape env a s text embedding htext henc hv]
        refine ⟨?_, ?_, ?_⟩ <;> simp
      | true =>
        cases hm : env.metaWriteOk with
        | false =>
          rw [ingest_meta_fail_shape env a s text embedding htext henc hv hm]
          refine ⟨?_, ?_, ?_⟩
          · intro b hb
            simp at hb
            subst hb
            exact ⟨[.extractAttempt true, .encodeAttempt text true],
              [.metaWrite false], rfl, by simp⟩
          · intro hvf
            simp at hvf
          · intro _
            exact ⟨⟨_, List.mem_append_right _ (List.mem_singleton_self _), rfl⟩,
              rfl⟩
        | true =>
          rw [ingest_ok_eq env a s text embedding htext henc hv hm]
          refine ⟨?_, ?_, ?_⟩
          · intro b hb
            simp at hb
            subst hb
            exact ⟨[.extractAttempt true, .encodeAttempt text true],
              [.metaWrite true], rfl, by simp⟩
          · intro hvf
            simp at hvf
          · intro hmf
            simp at hmf

theorem ingest_vector_before_meta_witness :
    (∃ vr ∈ (ingest exEnvMetaFail exArgs exState).2.1.vecRows,
       vr.id = exEnvMetaFail.freshId) ∧
    (ingest exEnvMetaFail exArgs exState).2.1.metaRows = exState.metaRows :=
  (ingest_vector_before_meta exEnvMetaFail exArgs exState).2.2
    (by rw [ingest_meta_fail_shape exEnvMetaFail exArgs exState
          "Jane Doe, Software Engineer" [27] rfl rfl rfl rfl]
        simp)

/-- Claim C4: the stored snippet equals the first 300 characters of
exactly the text handed to the embedding encoder, hence is at most 300
characters long. -/
theorem ingest_snippet_prefix_of_encoded (env : IngestEnv) (a : IngestArgs)
    (s : State) (obj : Resume) (s' : State) (tr : List Event) (input : String)
    (h : ingest env a s = (.ok obj, s', tr))
    (henc : Event.encodeAttempt input true ∈ tr) :
    obj.snippet = input.take 300 ∧ obj.snippet.length ≤ 300 := by
  obtain ⟨text, embedding, -, -, -, -, hobj, -, htr⟩ :=
    ingest_ok_shape env a s obj s' tr h
  subst htr
  have hit : input = text := by
    simp only [List.mem_cons, List.mem_singleton] at henc
    rcases henc with h | h | h | h <;> simp_all
  have hs : obj.snippet = text.take 300 := by rw [hobj]
  constructor
  · rw [hs, hit]
  · rw [hs, String.take_eq, ← String.length_data]
    exact List.length_take_le 300 text.data

theorem ingest_snippet_prefix_of_encoded_witness :
    exObj.snippet = "Jane Doe, Software Engineer".take 300 ∧
    exObj.snippet.length ≤ 300 :=
  ingest_snippet_prefix_of_encoded exEnv exArgs exState exObj exState1 exTrace
    "Jane Doe, Software Engineer"
    (by simp only [ingest, create_resume, exEnv, exArgs, exState,
          String.take_eq]
        rfl)
    (by simp [exTrace])

/-- Claim C5 (amended): with no name supplied, search returns exactly the
records passing the conjunction of one case-insensitive LIKE match of the
unescaped percent-wrapped pattern per supplied field, an absent field
imposing no constraint, and with all fields absent every stored record is
returned; for a filter value containing neither LIKE wildcard character
the per-field match is exactly a case-insensitive substring match. -/
theorem search_flexible_and (s : State) (rt occ : Option String) :
    (∀ r : Resume, r ∈ search s none rt occ ↔
      r ∈ s.metaRows ∧
      (truthy rt = true → ilikeMatch r.resumetype (rt.getD "") = true) ∧
      (truthy occ = true → ilikeMatch r.occupation (occ.getD "") = true)) ∧
    search s none none none = s.metaRows ∧
    (∀ p : String, '%' ∉ p.data → '_' ∉ p.data → ∀ st : String,
      ilikeMatch (some st) p = true ↔
        p.data.map Char.toLower <:+: st.data.map Char.toLower) := by
  refine ⟨?_, ?_, ?_⟩
  · intro r
    rw [search_eq_filter, List.mem_filter]
    cases hrt : truthy rt <;> cases hocc : truthy occ <;>
      simp [matchesQuery, truthy_none, hrt, hocc]
  · rw [search_eq_filter]
    apply List.filter_eq_self.mpr
    intro r hr
    simp [matchesQuery, truthy_none]
  · intro p h1 h2 st
    exact ilikeMatch_wildcard_free_iff st p h1 h2

theorem search_flexible_and_witness :
    search exState none none none = exState.metaRows ∧
    (ilikeMatch (some "jane doe") "Jane" = true ↔
      "Jane".data.map Char.toLower <:+: "jane doe".data.map Char.toLower) :=
  ⟨(search_flexible_and exState (some "Engineering") (some "Manager")).2.1,
   (search_flexible_and exState (some "Engineering") (some "Manager")).2.2
     "Jane" (by decide) (by decide) "jane doe"⟩

/-- Counterexample to claim C5 as stated: with no name supplied, filtering
on an occupation that ends in a percent sign returns the record whose
occupation is 100 percent even though the filter value is not a substring
of it, so the flexible branch is not exactly per-field substring
matching. -/
theorem search_flexible_and_cex :
    rCarol.occupation = some "100 percent" ∧
    rCarol ∈ search exStateC none none (some "100%") ∧
    ¬ ("100%".data.map Char.toLower <:+:
        "100 percent".data.map Char.toLower) := by
  decide

/-- Claim C6: every failing step aborts the whole ingestion and propagates
its error, with the effects of the earlier steps left in place: an
extraction failure, an encoding failure or a vector-write failure leaves
both stores untouched, and a metadata-write failure leaves the already
appended VectorRecord in place with the metadata table unchanged. -/
theorem ingest_abort_no_rollback (env : IngestEnv) (a : IngestArgs) (s : State) :
    (∀ e, env.extractResult = .error e →
      ingest env a s = (.error .extractionError, s, [.extractAttempt false])) ∧
    (∀ text e, env.extractResult = .ok text → env.encode text = .error e →
      ingest env a s = (.error .encodingError, s,
        [.extractAttempt true, .encodeAttempt text false])) ∧
    (∀ text embedding, env.extractResult = .ok text →
      env.encode text = .ok embedding → env.vecWriteOk = false →
      ingest env a s = (.error .indexWriteError, s,
        [.extractAttempt true, .encodeAttempt text true, .vectorWrite false])) ∧
    (∀ text embedding, env.extractResult = .ok text →
      env.encode text = .ok embedding → env.vecWriteOk = true →
      env.metaWriteOk = false →
      (ingest env a s).1 = .error .storeWriteError ∧
      (ingest env a s).2.1.metaRows = s.metaRows ∧
      ∃ vr : VectorRecord, (ingest env a s).2.1.vecRows = s.vecRows ++ [vr]) := by
  refine ⟨?_, ?_, ?_, ?_⟩
  · intro e he
    exact ingest_extract_fail_shape env a s e he
  · intro text e h1 h2
    exact ingest_encode_fail_shape env a s text e h1 h2
  · intro text embedding h1 h2 h3
    exact ingest_vec_fail_shape env a s text embedding h1 h2 h3
  · intro text embedding h1 h2 h3 h4
    rw [ingest_meta_fail_shape env a s text embedding h1 h2 h3 h4]
    exact ⟨rfl, rfl, _, rfl⟩

theorem ingest_abort_no_rollback_witness :
    ingest exEnvExtractFail exArgs exState =
      (.error .extractionError, exState, [.extractAttempt false]) :=
  (ingest_abort_no_rollback exEnvExtractFail exArgs exState).1 () rfl

/-- Claim C7: name matching has no false negatives on letter case and
matches substrings: any stored record whose name contains the query name
up to case is returned by a search for that name. -/
theorem search_no_case_false_negative (s : State) (r : Resume)
    (pat stored : String) (rt occ : Option String)
    (hmem : r ∈ s.metaRows) (hname : r.name = some stored) (hpat : pat ≠ "")
    (hsub : pat.data.map Char.toLower <:+: stored.data.map Char.toLower) :
    r ∈ search s (some pat) rt occ := by
  rw [search_eq_filter, List.mem_filter]
  refine ⟨hmem, ?_⟩
  have hn := truthy_some_of_ne pat hpat
  simp only [matchesQuery, hn, eq_self_iff_true, if_true, Option.getD_some]
  rw [hname]
  exact ilikeMatch_of_infix stored pat hsub

theorem search_no_case_false_negative_witness :
    rJane ∈ search exState (some "Jane") none none :=
  search_no_case_false_negative exState rJane "Jane" "jane doe" none none
    (by simp [exState]) rfl (by decide) (by decide)

/-- Claim C8: search never fails: for every argument combination and store
state it returns exactly the filtered record list, and when no stored
record matches the result is the empty sequence rather than an error. -/
theorem search_absence_is_empty (s : State) (name rt occ : Option String) :
    search s name rt occ = s.metaRows.filter (matchesQuery name rt occ) ∧
    ((∀ r ∈ s.metaRows, matchesQuery name rt occ r = false) →
      search s name rt occ = []) := by
  refine ⟨search_eq_filter s name rt occ, fun h => ?_⟩
  rw [search_eq_filter, List.filter_eq_nil_iff]
  intro r hr
  simp [h r hr]

theorem search_absence_is_empty_witness :
    search exState (some "NoSuchPerson") none none = [] :=
  (search_absence_is_empty exState (some "NoSuchPerson") none none).2
    (by decide)

/-- Claim C9: no exposed operation updates or deletes an existing record:
an ingestion only appends to each store, leaving every previously stored
record in place, and a search only reads, every returned record being one
already stored. -/
theorem no_update_no_delete (env : IngestEnv) (a : IngestArgs) (s : State)
    (name rt occ : Option String) :
    (∃ tailV, (ingest env a s).2.1.vecRows = s.vecRows ++ tailV) ∧
    (∃ tailM, (ingest env a s).2.1.metaRows = s.metaRows ++ tailM) ∧
    ∀ r ∈ search s name rt occ, r ∈ s.metaRows := by
  have hIngest : (∃ tailV, (ingest env a s).2.1.vecRows = s.vecRows ++ tailV) ∧
      (∃ tailM, (ingest env a s).2.1.metaRows = s.metaRows ++ tailM) := by
    cases htext : env.extractResult with
    | error e =>
      rw [ingest_extract_fail_shape env a s e htext]
      exact ⟨⟨[], by simp⟩, ⟨[], by simp⟩⟩
    | ok text =>
      cases henc : env.encode text with
      | error e =>
        rw [ingest_encode_fail_shape env a s text e htext henc]
        exact ⟨⟨[], by simp⟩, ⟨[], by simp⟩⟩
      | ok embedding =>
        cases hv : env.vecWriteOk with
        | false =>
          rw [ingest_vec_fail_shape env a s text embedding htext henc hv]
          exact ⟨⟨[], by simp⟩, ⟨[], by simp⟩⟩
        | true =>
          cases hm : env.metaWriteOk with
          | false =>
            rw [ingest_meta_fail_shape env a s text embedding htext henc hv hm]
            exact ⟨⟨_, rfl⟩, ⟨[], by simp⟩⟩
          | true =>
            rw [ingest_ok_eq env a s text embedding htext henc hv hm]
            exact ⟨⟨_, rfl⟩, ⟨_, rfl⟩⟩
  refine ⟨hIngest.1, hIngest.2, ?_⟩
  intro r hr
  rw [search_eq_filter] at hr
  exact List.mem_of_mem_filter hr

theorem no_update_no_delete_witness :
    ∃ tailM, (ingest exEnv exArgs exState).2.1.metaRows =
      exState.metaRows ++ tailM :=
  (no_update_no_delete exEnv exArgs exState none none none).2.1

/-- Claim C10: an empty-string argument behaves exactly like an absent
argument in every branch of search: an empty name selects the flexible
branch, an empty resumeType or occupation imposes no constraint, and
searching with all three empty returns every stored record. -/
theorem search_empty_string_as_absent (s : State) (rt occ : Option String) :
    search s (some "") rt occ = search s none rt occ ∧
    (∀ o : Option String, search s none (some "") o = search s none none o) ∧
    (∀ n : Option String, search s none n (some "") = search s none n none) ∧
    search s (some "") (some "") (some "") = s.metaRows := by
  refine ⟨?_, ?_, ?_, ?_⟩
  · simp [search, query_resumes, truthy_some_empty, truthy_none]
  · intro o
    simp [search, query_resumes, truthy_some_empty, truthy_none]
  · intro n
    simp [search, query_resumes, truthy_some_empty, truthy_none]
  · simp [search, query_resumes, truthy_some_empty, truthy_none]

theorem search_empty_string_as_absent_witness :
    search exState (some "") (some "") (some "") = exState.metaRows :=
  (search_empty_string_as_absent exState none none).2.2.2

end ResumeIndex
